import Mathlib

/-!
Shallow embedding of the vim-rs editor core (src/line.rs and the modal state
machine of src/main.rs), with theorems checking the natural-language
specification against it.

Strings are modelled as their character sequences (`List Char`); `usize`
arithmetic is `Nat`, with wrapping subtraction made explicit at the one place
the source subtracts without a guard.
-/

namespace VimRs

/-- Model of the external unicode-width crate: `UnicodeWidthChar::width`.
The crate returns `none` for control characters (C0, DEL, C1), `some 0` for
combining marks, `some 2` for wide East-Asian ranges, and `some 1` otherwise.
This table reproduces the crate's answers on those well-known classes. -/
def charWidthOpt (c : Char) : Option Nat :=
  let n := c.toNat
  if n < 0x20 ∨ n = 0x7F then none
  else if n < 0x7F then some 1
  else if n ≤ 0x9F then none
  else if 0x300 ≤ n ∧ n ≤ 0x36F then some 0
  else if (0x1100 ≤ n ∧ n ≤ 0x115F) ∨ (0x2E80 ≤ n ∧ n ≤ 0xA4CF) ∨
          (0xAC00 ≤ n ∧ n ≤ 0xD7A3) ∨ (0xF900 ≤ n ∧ n ≤ 0xFAFF) ∨
          (0xFF00 ≤ n ∧ n ≤ 0xFF60) ∨ (0xFFE0 ≤ n ∧ n ≤ 0xFFE6) ∨
          (0x20000 ≤ n ∧ n ≤ 0x2FFFD) then some 2
  else some 1

/-- Model of Rust `char::is_ascii`: the code point is at most 0x7F. -/
def charIsAscii (c : Char) : Bool := c.toNat ≤ 0x7F

/-- Model of `UnicodeWidthStr::width`: sum of per-character widths, an
unmeasurable (control) character contributing 0. -/
def strWidth (cs : List Char) : Nat :=
  (cs.map (fun c => (charWidthOpt c).getD 0)).sum

/-- The `Line` struct of src/line.rs: text plus the incrementally maintained
character count `len`, display width `width`, and the non-ASCII flag. -/
structure Line where
  text : List Char
  has_utf8 : Bool
  len : Nat
  width : Nat
  deriving DecidableEq

/-- `Line::new`. -/
def Line.new : Line :=
  { text := [], has_utf8 := false, len := 0, width := 0 }

/-- `Line::with_string`. The Rust ASCII fast path sets `len = width = s.len()`
(byte length); for an all-ASCII string the byte length equals the character
count, so it is `s.length` here. -/
def Line.with_string (s : List Char) : Line :=
  if s.all charIsAscii then
    { text := s, has_utf8 := false, len := s.length, width := s.length }
  else
    { text := s, has_utf8 := true, len := s.length, width := strWidth s }

/-- `Line::get_unicode_width_at`. -/
def Line.get_unicode_width_at (l : Line) (index : Nat) : Nat :=
  if l.has_utf8 = false then index
  else if index = l.len then l.width
  else strWidth (l.text.take index)

/-- `Line::len` (the accessor returns the cached field). -/
def Line.length (l : Line) : Nat := l.len

/-- `Line::clear`. -/
def Line.clear (_l : Line) : Line :=
  { text := [], has_utf8 := false, len := 0, width := 0 }

/-- `Line::push`: appends a character; an ASCII character contributes width 1
without a width lookup; a non-ASCII character with a measurable width
contributes that width and sets the flag, otherwise it falls into the same
`else` as ASCII (width 1, flag unchanged). -/
def Line.push (l : Line) (ch : Char) : Line :=
  if !charIsAscii ch && (charWidthOpt ch).isSome then
    { text := l.text ++ [ch], has_utf8 := true, len := l.len + 1,
      width := l.width + (charWidthOpt ch).getD 0 }
  else
    { text := l.text ++ [ch], has_utf8 := l.has_utf8, len := l.len + 1,
      width := l.width + 1 }

/-- `Extend<char> for Line`: pushes each character in order. -/
def Line.extend (l : Line) (cs : List Char) : Line :=
  cs.foldl Line.push l

/-- The `WindowSize` struct (also reused as the cursor position). -/
structure WindowSize where
  col : Nat
  row : Nat
  deriving DecidableEq

/-- The `SplitBuffer` struct: `start` is the before-cursor part (`Vec<char>`,
cursor side at the tail), `end_` the after-cursor part (`VecDeque<char>`,
cursor side at the head; the Rust field is named `end`). The capacity hint
passed to `Vec::with_capacity` has no observable effect and is not modelled. -/
structure SplitBuffer where
  start : List Char
  end_ : List Char
  deriving DecidableEq

/-- The `Mode` enum. -/
inductive Mode where
  | Normal : Mode
  | Insertion : SplitBuffer → Mode
  deriving DecidableEq

/-- The `State` struct. The two `termios` fields only hold terminal settings
for the out-of-scope raw-mode collaborator and are not modelled. -/
structure State where
  window_size : WindowSize
  cursor_pos : WindowSize
  target_col : Nat
  text_lines : List Line
  current_mode : Mode
  deriving DecidableEq

/-- Wrapping `usize` subtraction (release-mode Rust semantics), for the two
unguarded subtractions `window_size.row - 3` and `text_lines.len() - 1`. -/
def usizeSub (a b : Nat) : Nat :=
  (a + (18446744073709551616 - b % 18446744073709551616)) % 18446744073709551616

/-- Model of slice `rotate_left(1)` on a non-empty slice: the head moves to
the end. (The source only calls it on a slice of length at least one.) -/
def rotL1 : List α → List α
  | [] => []
  | x :: xs => xs ++ [x]

/-- Model of `Vec::insert` at an index that is at most the length. -/
def listInsertAt (xs : List α) (n : Nat) (x : α) : List α :=
  xs.take n ++ x :: xs.drop n

/-- `State::get_current_line`. -/
def State.get_current_line (s : State) : Option Line :=
  s.text_lines[s.cursor_pos.row]?

/-- `State::clamp_col_to_current_line`. -/
def State.clamp_col_to_current_line (s : State) : State :=
  let len := (s.get_current_line).elim 0 Line.length
  { s with cursor_pos := { s.cursor_pos with col := min s.target_col len } }

/-- `State::enable_insertion_mode`: if there is a current line and the column
is within it, split its characters at the column into a `SplitBuffer` and
switch to insertion mode; otherwise do nothing. -/
def State.enable_insertion_mode (s : State) : State :=
  match s.get_current_line with
  | some line =>
      if s.cursor_pos.col ≤ line.len then
        let buf := SplitBuffer.mk (line.text.take s.cursor_pos.col)
                                  (line.text.drop s.cursor_pos.col)
        { s with current_mode := Mode.Insertion buf }
      else s
  | none => s

/-- `State::handle_keypress_normal`. Input is the raw byte; the returned
`Bool` is the "program should continue" flag. Byte codes: h=104, l=108,
j=106, k=107, d=100, i=105, o=111, q=113. -/
def State.handle_keypress_normal (s : State) (c : Nat) : State × Bool :=
  if c = 104 then
    if s.cursor_pos.col = 0 then (s, true)
    else
      let col := s.cursor_pos.col - 1
      ({ s with cursor_pos := { s.cursor_pos with col := col }, target_col := col }, true)
  else if c = 108 then
    if (match s.get_current_line with
        | some line => decide (line.len ≤ s.cursor_pos.col)
        | none => false) then (s, true)
    else
      let col := s.cursor_pos.col + 1
      ({ s with cursor_pos := { s.cursor_pos with col := col }, target_col := col }, true)
  else if c = 106 then
    if usizeSub s.window_size.row 3 ≤ s.cursor_pos.row ∨
       usizeSub s.text_lines.length 1 ≤ s.cursor_pos.row then (s, true)
    else
      (({ s with cursor_pos := { s.cursor_pos with
            row := s.cursor_pos.row + 1 } }).clamp_col_to_current_line, true)
  else if c = 107 then
    if s.cursor_pos.row = 0 then (s, true)
    else
      (({ s with cursor_pos := { s.cursor_pos with
            row := s.cursor_pos.row - 1 } }).clamp_col_to_current_line, true)
  else if c = 100 then
    match s.get_current_line with
    | some line =>
        let lines := s.text_lines.set s.cursor_pos.row line.clear
        let lines := lines.take s.cursor_pos.row ++ rotL1 (lines.drop s.cursor_pos.row)
        (({ s with text_lines := lines }).clamp_col_to_current_line, true)
    | none => (s, true)
  else if c = 105 then
    (s.enable_insertion_mode, true)
  else if c = 111 then
    let row := s.cursor_pos.row + 1
    let s1 := { s with cursor_pos := { s.cursor_pos with row := row } }
    let s2 :=
      if row = s1.text_lines.length then
        { s1 with text_lines := s1.text_lines ++ [Line.new] }
      else
        { s1 with text_lines := listInsertAt s1.text_lines row Line.new }
    let s3 := { s2 with cursor_pos := { s2.cursor_pos with col := 0 } }
    (s3.enable_insertion_mode, true)
  else if c = 113 then (s, false)
  else (s, true)

/-- `State::handle_keypress_insertion`, given the `SplitBuffer` moved out of
the mode by the main loop. ESC=27 commits the buffer back into the current
line; BACKSPACE=127 pops the before-cursor part when the column is nonzero;
a printable byte (`is_ascii_graphic`, 33..=126) or space (32) is appended to
the before-cursor part; anything else keeps the buffer unchanged. -/
def State.handle_keypress_insertion (s : State) (c : Nat) (buffer : SplitBuffer) :
    State × Bool :=
  if c = 27 then
    let s1 := { s with current_mode := Mode.Normal, target_col := s.cursor_pos.col }
    match s1.get_current_line with
    | some line =>
        let newLine := ((line.clear).extend buffer.start).extend buffer.end_
        ({ s1 with text_lines := s1.text_lines.set s1.cursor_pos.row newLine }, true)
    | none => (s1, true)
  else if c = 127 then
    if s.cursor_pos.col ≠ 0 ∧ buffer.start ≠ [] then
      ({ s with
          cursor_pos := { s.cursor_pos with col := s.cursor_pos.col - 1 },
          current_mode := Mode.Insertion (SplitBuffer.mk buffer.start.dropLast buffer.end_) }, true)
    else
      ({ s with current_mode := Mode.Insertion buffer }, true)
  else if (33 ≤ c ∧ c ≤ 126) ∨ c = 32 then
    ({ s with
        cursor_pos := { s.cursor_pos with col := s.cursor_pos.col + 1 },
        current_mode := Mode.Insertion (SplitBuffer.mk (buffer.start ++ [Char.ofNat c]) buffer.end_) }, true)
  else
    ({ s with current_mode := Mode.Insertion buffer }, true)

/-- One iteration of the main loop on one input byte: the mode is moved out
of the state (replaced by `Normal`) and the byte is dispatched to the
handler for that mode. -/
def State.step (s : State) (c : Nat) : State × Bool :=
  match s.current_mode with
  | Mode.Normal => ({ s with current_mode := Mode.Normal }).handle_keypress_normal c
  | Mode.Insertion buffer =>
      ({ s with current_mode := Mode.Normal }).handle_keypress_insertion c buffer

/-- The spec's Line invariant, read literally: the cached `width` equals the
sum of the terminal widths of the characters (unmeasurable ones counting 0),
and `len` equals the character count. -/
def LineWF (l : Line) : Prop :=
  l.len = l.text.length ∧ l.width = strWidth l.text

/-- The weaker invariant that every `Line` built by the public constructors
actually maintains: the cached width is an upper bound of the summed width. -/
def LineInv (l : Line) : Prop :=
  l.len = l.text.length ∧ strWidth l.text ≤ l.width

/-- Characters on which `Line::push`'s increment agrees with the measured
width: printable ASCII (the crate measures them 1), or non-ASCII with a
defined width. Excluded are ASCII control characters such as tab, which
`push` and the ASCII fast path count as 1 though their measured width is
undefined (0). -/
def goodChar (c : Char) : Prop :=
  (charIsAscii c = true → charWidthOpt c = some 1) ∧
  (charIsAscii c = false → (charWidthOpt c).isSome = true)

instance (l : Line) : Decidable (LineWF l) := by
  unfold LineWF
  infer_instance

instance (l : Line) : Decidable (LineInv l) := by
  unfold LineInv
  infer_instance

instance (c : Char) : Decidable (goodChar c) := by
  unfold goodChar
  infer_instance

/-- A one-line document "abc" with the cursor at column 1, in normal mode. -/
def abcState : State :=
  { window_size := ⟨80, 10⟩, cursor_pos := ⟨1, 0⟩, target_col := 0,
    text_lines := [Line.with_string ['a', 'b', 'c']], current_mode := Mode.Normal }

/-- A three-line document with "abcdef" at row 1 and the cursor at (2, 1). -/
def abcdefState : State :=
  { window_size := ⟨80, 10⟩, cursor_pos := ⟨2, 1⟩, target_col := 2,
    text_lines := [Line.with_string ['x', 'x'],
                   Line.with_string ['a', 'b', 'c', 'd', 'e', 'f'],
                   Line.with_string ['y', 'y']],
    current_mode := Mode.Normal }

/-- A ten-line document in a 5-row window with the cursor at row 2: the
spec's move-down precondition `row < rows-1` holds but the code's
`row < rows-3` does not. -/
def shortWindowState : State :=
  { window_size := ⟨80, 5⟩, cursor_pos := ⟨0, 2⟩, target_col := 0,
    text_lines := List.replicate 10 (Line.with_string []), current_mode := Mode.Normal }

/-- A two-line document in a 10-row window, cursor at row 0, sticky column 5. -/
def tallWindowState : State :=
  { window_size := ⟨80, 10⟩, cursor_pos := ⟨0, 0⟩, target_col := 5,
    text_lines := [Line.with_string ['a', 'b'], Line.with_string ['c']],
    current_mode := Mode.Normal }

/-- The three-line document "a", "b", "c" with the cursor at row 0. -/
def threeLineState : State :=
  { window_size := ⟨80, 10⟩, cursor_pos := ⟨0, 0⟩, target_col := 0,
    text_lines := [Line.with_string ['a'], Line.with_string ['b'], Line.with_string ['c']],
    current_mode := Mode.Normal }

/-- An insertion-mode state mid-session on the line "ab", split after 'a'. -/
def insertionState : State :=
  { window_size := ⟨80, 10⟩, cursor_pos := ⟨1, 0⟩, target_col := 0,
    text_lines := [Line.with_string ['a', 'b']],
    current_mode := Mode.Insertion ⟨['a'], ['b']⟩ }

/-- A string mixing one double-width character (U+4E00) with tabs. -/
def wideAndTabs : List Char :=
  [Char.ofNat 19968, Char.ofNat 9, Char.ofNat 9, Char.ofNat 9]

/-- A string with one double-width character (U+4E00) and one ASCII letter. -/
def wideAscii : List Char := [Char.ofNat 19968, Char.ofNat 97]

/-- The line built from the single double-width character U+4E00. -/
def wideLine : Line := Line.with_string [Char.ofNat 19968]

theorem Line.push_text (l : Line) (c : Char) : (l.push c).text = l.text ++ [c] := by
  unfold Line.push; split <;> rfl

theorem Line.push_len (l : Line) (c : Char) : (l.push c).len = l.len + 1 := by
  unfold Line.push; split <;> rfl

theorem Line.extend_text (l : Line) (cs : List Char) :
    (l.extend cs).text = l.text ++ cs := by
  induction cs generalizing l with
  | nil => simp [Line.extend]
  | cons c cs ih =>
      simp only [Line.extend, List.foldl_cons]
      rw [show (List.foldl Line.push (l.push c) cs) = (l.push c).extend cs from rfl]
      rw [ih, Line.push_text]
      simp

theorem Line.extend_len (l : Line) (cs : List Char) :
    (l.extend cs).len = l.len + cs.length := by
  induction cs generalizing l with
  | nil => simp [Line.extend]
  | cons c cs ih =>
      simp only [Line.extend, List.foldl_cons]
      rw [show (List.foldl Line.push (l.push c) cs) = (l.push c).extend cs from rfl]
      rw [ih, Line.push_len]
      simp [List.length_cons]
      omega

theorem Line.push_hasUtf8_mono (l : Line) (c : Char) (h : l.has_utf8 = true) :
    (l.push c).has_utf8 = true := by
  unfold Line.push; split <;> simp [h]

theorem Line.extend_hasUtf8_mono (l : Line) (cs : List Char) (h : l.has_utf8 = true) :
    (l.extend cs).has_utf8 = true := by
  induction cs generalizing l with
  | nil => simpa [Line.extend]
  | cons c cs ih =>
      simp only [Line.extend, List.foldl_cons]
      exact ih (l.push c) (Line.push_hasUtf8_mono l c h)

theorem strWidth_nil : strWidth [] = 0 := rfl

theorem strWidth_cons (c : Char) (cs : List Char) :
    strWidth (c :: cs) = (charWidthOpt c).getD 0 + strWidth cs := by
  simp [strWidth]

theorem strWidth_append (xs ys : List Char) :
    strWidth (xs ++ ys) = strWidth xs + strWidth ys := by
  simp [strWidth]

theorem charWidth_ascii_le_one (c : Char) (h : charIsAscii c = true) :
    (charWidthOpt c).getD 0 ≤ 1 := by
  have hn : c.toNat ≤ 127 := by simpa [charIsAscii] using h
  unfold charWidthOpt
  dsimp only
  split_ifs <;> simp_all <;> omega

theorem charWidth_two_not_ascii (c : Char) (h : charWidthOpt c = some 2) :
    charIsAscii c = false := by
  by_contra hca
  have hn : c.toNat ≤ 127 := by
    have : charIsAscii c = true := by simpa using hca
    simpa [charIsAscii] using this
  unfold charWidthOpt at h
  dsimp only at h
  split_ifs at h <;> simp_all <;> omega

theorem natSum_length_le (L : List Nat) (h : ∀ x ∈ L, 1 ≤ x) :
    L.length ≤ L.sum := by
  induction L with
  | nil => simp
  | cons x L ih =>
      have hx := h x (List.mem_cons_self x L)
      have hL := ih (fun y hy => h y (List.mem_cons_of_mem x hy))
      simp only [List.length_cons, List.sum_cons]
      omega

theorem natSum_eq_length_iff (L : List Nat) (h : ∀ x ∈ L, 1 ≤ x) :
    L.sum = L.length ↔ ∀ x ∈ L, x ≤ 1 := by
  induction L with
  | nil => simp
  | cons x L ih =>
      have hx := h x (List.mem_cons_self x L)
      have htail : ∀ y ∈ L, 1 ≤ y := fun y hy => h y (List.mem_cons_of_mem x hy)
      have hL := natSum_length_le L htail
      simp only [List.length_cons, List.sum_cons, List.mem_cons]
      constructor
      · intro heq
        have hx1 : x = 1 := by omega
        have hsum : L.sum = L.length := by omega
        intro y hy
        rcases hy with rfl | hy
        · omega
        · exact (ih htail).mp hsum y hy
      · intro hall
        have hx1 : x = 1 := le_antisymm (hall x (Or.inl rfl)) hx
        have : L.sum = L.length := (ih htail).mpr (fun y hy => hall y (Or.inr hy))
        omega

/-- Claim C1: for every line content and every split index k with
0 ≤ k ≤ length of the line, opening the edit buffer at k (the split made by
`enable_insertion_mode`: start = first k characters, end = the rest) and then
immediately committing it (the ESC branch of `handle_keypress_insertion`,
which clears the line and re-extends it with start then end) reconstructs
exactly the line's original character sequence, with no intervening edits. -/
theorem C1_open_commit_roundtrip (s : State) (l : Line)
    (hmode : s.current_mode = Mode.Normal)
    (hline : s.get_current_line = some l)
    (hcol : s.cursor_pos.col ≤ l.len) :
    ∃ l2, ((s.step 105).1.step 27).1.get_current_line = some l2 ∧ l2.text = l.text := by
  obtain ⟨ws, cpos, tc, lines, mode⟩ := s
  simp only at hline hcol
  subst hmode
  have hlt : cpos.row < lines.length := by
    have := List.getElem?_eq_some_iff.mp (by simpa [State.get_current_line] using hline)
    exact this.1
  simp only [State.step, State.handle_keypress_normal, State.enable_insertion_mode,
    State.get_current_line] at *
  norm_num
  rw [hline]
  simp only [hcol, if_true]
  simp only [State.handle_keypress_insertion]
  norm_num
  simp only [State.get_current_line]
  rw [hline]
  refine ⟨((l.clear).extend (l.text.take cpos.col)).extend (l.text.drop cpos.col), ?_, ?_⟩
  · simp [List.getElem?_set_self hlt]
  · simp [Line.extend_text, Line.clear]

/-- Claim C2: from navigation mode with the line at row 1 holding "abcdef"
and col = 2, the inputs i (105), X (88), ESC (27) leave the line at row 1 as
"abXcdef", with col = 3, target_col = 3, and the mode back in Normal. -/
theorem C2_insert_roundtrip (s : State) (l : Line)
    (hmode : s.current_mode = Mode.Normal)
    (hrow : s.cursor_pos.row = 1)
    (hcol : s.cursor_pos.col = 2)
    (hl : s.text_lines[1]? = some l)
    (htext : l.text = ['a', 'b', 'c', 'd', 'e', 'f'])
    (hlen : l.len = 6) :
    (∃ l2, (((s.step 105).1.step 88).1.step 27).1.text_lines[1]? = some l2 ∧
       l2.text = ['a', 'b', 'X', 'c', 'd', 'e', 'f']) ∧
    (((s.step 105).1.step 88).1.step 27).1.cursor_pos.col = 3 ∧
    (((s.step 105).1.step 88).1.step 27).1.target_col = 3 ∧
    (((s.step 105).1.step 88).1.step 27).1.current_mode = Mode.Normal := by
  obtain ⟨ws, cpos, tc, lines, mode⟩ := s
  obtain ⟨col, row⟩ := cpos
  simp only at hrow hcol hl
  subst hmode hrow hcol
  have hlt : (1 : Nat) < lines.length := (List.getElem?_eq_some_iff.mp hl).1
  simp only [State.step, State.handle_keypress_normal, State.enable_insertion_mode,
    State.get_current_line]
  norm_num
  rw [hl]
  simp only [hlen, htext]
  norm_num
  simp only [State.handle_keypress_insertion]
  norm_num
  simp only [State.get_current_line]
  rw [hl]
  simp only [List.getElem?_set_self hlt]
  refine ⟨⟨_, rfl, ?_⟩, ?_, ?_, ?_⟩ <;> simp [Line.extend_text, Line.clear]

/-- Witness for C1: the one-line document "abc" with the cursor at column 1;
opening then committing reproduces the text "abc". -/
theorem C1_open_commit_roundtrip_witness :
    abcState.current_mode = Mode.Normal ∧
    abcState.get_current_line = some (Line.with_string ['a', 'b', 'c']) ∧
    abcState.cursor_pos.col ≤ (Line.with_string ['a', 'b', 'c']).len ∧
    ∃ l2, ((abcState.step 105).1.step 27).1.get_current_line = some l2 ∧
      l2.text = (Line.with_string ['a', 'b', 'c']).text :=
  ⟨rfl, by decide, by decide,
    C1_open_commit_roundtrip abcState (Line.with_string ['a', 'b', 'c'])
      rfl (by decide) (by decide)⟩

/-- Witness for C2: the concrete three-line document with "abcdef" at row 1
and cursor (2, 1). -/
theorem C2_insert_roundtrip_witness :
    abcdefState.current_mode = Mode.Normal ∧
    abcdefState.cursor_pos.row = 1 ∧ abcdefState.cursor_pos.col = 2 ∧
    ((∃ l2, (((abcdefState.step 105).1.step 88).1.step 27).1.text_lines[1]? = some l2 ∧
        l2.text = ['a', 'b', 'X', 'c', 'd', 'e', 'f']) ∧
     (((abcdefState.step 105).1.step 88).1.step 27).1.cursor_pos.col = 3 ∧
     (((abcdefState.step 105).1.step 88).1.step 27).1.target_col = 3 ∧
     (((abcdefState.step 105).1.step 88).1.step 27).1.current_mode = Mode.Normal) :=
  ⟨rfl, rfl, rfl,
    C2_insert_roundtrip abcdefState (Line.with_string ['a', 'b', 'c', 'd', 'e', 'f'])
      rfl rfl rfl (by decide) (by decide) (by decide)⟩

/-- Counterexample to C3 as stated: the tab character is ASCII, so both the
ASCII fast path of `with_string` and `push` count it as width 1, while its
terminal width is undefined (summed as 0); the invariant
`width = sum of terminal widths` fails on the line "\t". -/
theorem C3_counterexample :
    charIsAscii (Char.ofNat 9) = true ∧ charWidthOpt (Char.ofNat 9) = none ∧
    ¬ ((Line.with_string [Char.ofNat 9]).width =
        strWidth (Line.with_string [Char.ofNat 9]).text) := by decide

theorem strWidth_all_one (s : List Char) (h : ∀ c ∈ s, (charWidthOpt c).getD 0 = 1) :
    strWidth s = s.length := by
  induction s with
  | nil => rfl
  | cons c cs ih =>
      rw [strWidth_cons, h c (List.mem_cons_self c cs),
        ih (fun d hd => h d (List.mem_cons_of_mem c hd))]
      simp [List.length_cons]
      omega

/-- Claim C3 (amended): the invariant `width = sum of terminal widths` and
`len = character count` holds after both constructors and is preserved by
`push` and `clear`, provided every character involved has a defined width
and ASCII characters measure 1 (i.e. printable ASCII); for ASCII control
characters such as tab the width half of the invariant fails, as the
counterexample shows. -/
theorem C3_width_invariant_amended :
    LineWF Line.new ∧
    (∀ s, (∀ c ∈ s, goodChar c) → LineWF (Line.with_string s)) ∧
    (∀ l c, LineWF l → goodChar c → LineWF (l.push c)) ∧
    (∀ l : Line, LineWF l.clear) := by
  have hclear : ∀ l : Line, LineWF l.clear := fun l => ⟨rfl, rfl⟩
  refine ⟨⟨rfl, rfl⟩, ?_, ?_, hclear⟩
  · intro s hs
    unfold Line.with_string
    split_ifs with hA
    · refine ⟨rfl, ?_⟩
      have : strWidth s = s.length := by
        refine strWidth_all_one s (fun c hc => ?_)
        have hca : charIsAscii c = true := by
          have := List.all_eq_true.mp hA c hc
          simpa using this
        rw [(hs c hc).1 hca]
        rfl
      simpa using this.symm
    · exact ⟨rfl, rfl⟩
  · intro l c hwf hgc
    obtain ⟨hlen, hwid⟩ := hwf
    unfold Line.push
    split_ifs with hcond
    · refine ⟨by simp [hlen], ?_⟩
      simp only [strWidth_append, strWidth_cons, strWidth_nil, hwid]
      omega
    · have hone : (charWidthOpt c).getD 0 = 1 := by
        by_cases hca : charIsAscii c = true
        · rw [(hgc.1 hca)]; rfl
        · exfalso
          have hca' : charIsAscii c = false := by
            cases hq : charIsAscii c
            · rfl
            · exact absurd hq hca
          have hsome := hgc.2 hca'
          apply hcond
          simp [hca', hsome]
      refine ⟨by simp [hlen], ?_⟩
      simp only [strWidth_append, strWidth_cons, strWidth_nil, hwid, hone]

/-- Witness for the amended C3: pushing the printable ASCII letter a onto the
empty line preserves the full invariant. -/
theorem C3_width_invariant_amended_witness :
    goodChar (Char.ofNat 97) ∧ LineWF (Line.new.push (Char.ofNat 97)) :=
  ⟨by decide,
    C3_width_invariant_amended.2.2.1 Line.new (Char.ofNat 97) ⟨rfl, rfl⟩ (by decide)⟩

theorem usizeSub_eq (a b : Nat) (hb : b ≤ a) (ha : a < 18446744073709551616) :
    usizeSub a b = a - b := by
  unfold usizeSub
  omega

set_option maxRecDepth 8192 in
/-- Counterexample to C4 as stated: in a 5-row window with 10 lines and the
cursor at row 2, the spec's preconditions `row < rows-1` and
`row < count-1` hold, yet the j keystroke is a no-op, because the code
tests `row >= rows-3`. -/
theorem C4_counterexample :
    shortWindowState.current_mode = Mode.Normal ∧
    shortWindowState.cursor_pos.row < shortWindowState.window_size.row - 1 ∧
    shortWindowState.cursor_pos.row < shortWindowState.text_lines.length - 1 ∧
    (shortWindowState.step 106).1 = shortWindowState := by decide

/-- Claim C4 (amended): in navigation mode, j increments the row and clamps
the column to `min target_col (length of the new current line)` exactly when
`row < rows-3` (not `rows-1` as claimed) and `row < count-1`; otherwise the
keystroke leaves the whole state unchanged. The bounds hypotheses keep the
wrapping `usize` subtractions in their non-wrapped range. -/
theorem C4_move_down_amended (s : State)
    (hmode : s.current_mode = Mode.Normal)
    (hrows : 3 ≤ s.window_size.row) (hrowsB : s.window_size.row < 18446744073709551616)
    (hcnt : 1 ≤ s.text_lines.length) (hcntB : s.text_lines.length < 18446744073709551616) :
    (s.cursor_pos.row < s.window_size.row - 3 ∧ s.cursor_pos.row < s.text_lines.length - 1 →
       (s.step 106).1.cursor_pos.row = s.cursor_pos.row + 1 ∧
       (∃ l, (s.step 106).1.get_current_line = some l ∧
          (s.step 106).1.cursor_pos.col = min s.target_col l.len)) ∧
    (¬(s.cursor_pos.row < s.window_size.row - 3 ∧ s.cursor_pos.row < s.text_lines.length - 1) →
       (s.step 106).1 = s) := by
  obtain ⟨ws, cpos, tc, lines, mode⟩ := s
  simp only at hmode hrows hrowsB hcnt hcntB
  subst hmode
  simp only [State.step, State.handle_keypress_normal]
  rw [if_neg (show ¬(106 : Nat) = 104 by decide), if_neg (show ¬(106 : Nat) = 108 by decide)]
  simp only [eq_self_iff_true, if_true]
  rw [usizeSub_eq ws.row 3 hrows hrowsB, usizeSub_eq lines.length 1 hcnt hcntB]
  constructor
  · rintro ⟨h1, h2⟩
    rw [if_neg (by omega)]
    have hlt : cpos.row + 1 < lines.length := by omega
    refine ⟨rfl, lines[cpos.row + 1], ?_, ?_⟩
    · simp [State.clamp_col_to_current_line, State.get_current_line,
        List.getElem?_eq_getElem hlt]
    · simp [State.clamp_col_to_current_line, State.get_current_line,
        List.getElem?_eq_getElem hlt, Line.length]
  · intro hno
    rw [if_pos (by omega)]

/-- Witness for the amended C4: a two-line document in a 10-row window with
the cursor at row 0 and sticky column 5; j moves to row 1 and clamps the
column to the length 1 of the line "c". -/
theorem C4_move_down_amended_witness :
    tallWindowState.current_mode = Mode.Normal ∧
    3 ≤ tallWindowState.window_size.row ∧
    1 ≤ tallWindowState.text_lines.length ∧
    ((tallWindowState.cursor_pos.row < tallWindowState.window_size.row - 3 ∧
        tallWindowState.cursor_pos.row < tallWindowState.text_lines.length - 1 →
       (tallWindowState.step 106).1.cursor_pos.row = tallWindowState.cursor_pos.row + 1 ∧
       (∃ l, (tallWindowState.step 106).1.get_current_line = some l ∧
          (tallWindowState.step 106).1.cursor_pos.col = min tallWindowState.target_col l.len)) ∧
     (¬(tallWindowState.cursor_pos.row < tallWindowState.window_size.row - 3 ∧
          tallWindowState.cursor_pos.row < tallWindowState.text_lines.length - 1) →
       (tallWindowState.step 106).1 = tallWindowState)) :=
  ⟨rfl, by decide, by decide,
    C4_move_down_amended tallWindowState rfl (by decide) (by decide) (by decide) (by decide)⟩

/-- Counterexample to C5 as stated: U+0080 is non-ASCII but has no defined
width (a C1 control), so `push` takes the `else` branch and leaves the
`has_utf8` flag unset. -/
theorem C5_counterexample :
    charIsAscii (Char.ofNat 128) = false ∧
    (Line.new.push (Char.ofNat 128)).has_utf8 = false := by decide

/-- Claim C5 (amended): pushing a non-ASCII character whose width is defined
flags the line non-ASCII, the flag survives any further pushes, and every
query on the flagged line takes the precise path (cached total at the length,
per-character summation elsewhere) rather than returning the index. -/
theorem C5_flag_amended (l : Line) (c : Char)
    (hca : charIsAscii c = false) (hw : (charWidthOpt c).isSome = true) :
    ∀ (cs : List Char) (idx : Nat),
      ((l.push c).extend cs).has_utf8 = true ∧
      ((l.push c).extend cs).get_unicode_width_at idx =
        (if idx = ((l.push c).extend cs).len then ((l.push c).extend cs).width
         else strWidth (((l.push c).extend cs).text.take idx)) := by
  intro cs idx
  have hflag : (l.push c).has_utf8 = true := by
    unfold Line.push
    rw [if_pos (by simp [hca, hw])]
  have hflag2 := Line.extend_hasUtf8_mono _ cs hflag
  refine ⟨hflag2, ?_⟩
  simp [Line.get_unicode_width_at, hflag2]

/-- Witness for the amended C5: pushing U+00E9 onto the empty line sets the
flag, and the query at index 0 takes the precise path. -/
theorem C5_flag_amended_witness :
    charIsAscii (Char.ofNat 233) = false ∧
    (charWidthOpt (Char.ofNat 233)).isSome = true ∧
    ((Line.new.push (Char.ofNat 233)).extend []).has_utf8 = true ∧
    ((Line.new.push (Char.ofNat 233)).extend []).get_unicode_width_at 0 =
      (if (0 : Nat) = ((Line.new.push (Char.ofNat 233)).extend []).len
       then ((Line.new.push (Char.ofNat 233)).extend []).width
       else strWidth (((Line.new.push (Char.ofNat 233)).extend []).text.take 0)) :=
  ⟨by decide, by decide,
    (C5_flag_amended Line.new (Char.ofNat 233) (by decide) (by decide) [] 0).1,
    (C5_flag_amended Line.new (Char.ofNat 233) (by decide) (by decide) [] 0).2⟩

/-- Counterexample to C6 as stated: the string with one double-width
character and three tabs has character count 4 but full display width 2,
so `display_width_at(length) >= length` fails. -/
theorem C6_counterexample :
    (charWidthOpt (Char.ofNat 19968) = some 2 ∧ Char.ofNat 19968 ∈ wideAndTabs) ∧
    (Line.with_string wideAndTabs).get_unicode_width_at wideAndTabs.length <
      wideAndTabs.length := by decide

/-- Claim C6 (amended): for a string containing a double-width character in
which every character has width at least 1 (the counterexample forces the
exclusion of zero- and undefined-width characters), the full display width is
at least the character count, with equality iff no character has width
greater than 1. -/
theorem C6_wide_amended (s : List Char)
    (hwide : ∃ c ∈ s, charWidthOpt c = some 2)
    (hpos : ∀ c ∈ s, 1 ≤ (charWidthOpt c).getD 0) :
    s.length ≤ (Line.with_string s).get_unicode_width_at (Line.with_string s).len ∧
    ((Line.with_string s).get_unicode_width_at (Line.with_string s).len = s.length ↔
      ∀ c ∈ s, (charWidthOpt c).getD 0 ≤ 1) := by
  obtain ⟨c0, hc0mem, hc0⟩ := hwide
  have hnotascii : s.all charIsAscii = false := by
    cases hq : s.all charIsAscii
    · rfl
    · exfalso
      have := List.all_eq_true.mp hq c0 hc0mem
      have h2 := charWidth_two_not_ascii c0 hc0
      simp [h2] at this
  have hW : Line.with_string s = ⟨s, true, s.length, strWidth s⟩ := by
    unfold Line.with_string
    rw [hnotascii]
    rfl
  rw [hW]
  have hg : (Line.mk s true s.length (strWidth s)).get_unicode_width_at
      (Line.mk s true s.length (strWidth s)).len = strWidth s := by
    unfold Line.get_unicode_width_at
    simp
  rw [hg]
  have hmem : ∀ x ∈ s.map (fun c => (charWidthOpt c).getD 0), 1 ≤ x := by
    intro x hx
    obtain ⟨c, hc, rfl⟩ := List.mem_map.mp hx
    exact hpos c hc
  have hlenmap : (s.map (fun c => (charWidthOpt c).getD 0)).length = s.length :=
    List.length_map s _
  constructor
  · have := natSum_length_le _ hmem
    rw [hlenmap] at this
    exact this
  · have := natSum_eq_length_iff _ hmem
    rw [hlenmap] at this
    rw [show strWidth s = (s.map (fun c => (charWidthOpt c).getD 0)).sum from rfl, this]
    constructor
    · intro hall c hc
      exact hall _ (List.mem_map_of_mem _ hc)
    · intro hall x hx
      obtain ⟨c, hc, rfl⟩ := List.mem_map.mp hx
      exact hall c hc

/-- Witness for the amended C6: the two-character string U+4E00 followed by
a, of count 2 and width 3. -/
theorem C6_wide_amended_witness :
    (∃ c ∈ wideAscii, charWidthOpt c = some 2) ∧
    (∀ c ∈ wideAscii, 1 ≤ (charWidthOpt c).getD 0) ∧
    (wideAscii.length ≤
       (Line.with_string wideAscii).get_unicode_width_at (Line.with_string wideAscii).len ∧
     ((Line.with_string wideAscii).get_unicode_width_at (Line.with_string wideAscii).len =
         wideAscii.length ↔
       ∀ c ∈ wideAscii, (charWidthOpt c).getD 0 ≤ 1)) :=
  ⟨by decide, by decide, C6_wide_amended wideAscii (by decide) (by decide)⟩

/-- Claim C7: on the three-line document "a", "b", "c" with the cursor at
row 0, the d keystroke yields the document "b", "c", "" and the line count
stays 3. -/
theorem C7_clear_and_shift_rotates :
    ((threeLineState.step 100).1.text_lines.map Line.text = [['b'], ['c'], []]) ∧
    (threeLineState.step 100).1.text_lines.length = 3 := by decide

/-- Claim C8: in insertion mode, any input byte leaves the cursor row, the
number of lines, and every line other than the current row's unchanged. -/
theorem C8_insertion_frame (s : State) (buf : SplitBuffer) (c : Nat)
    (hmode : s.current_mode = Mode.Insertion buf) :
    (s.step c).1.cursor_pos.row = s.cursor_pos.row ∧
    (s.step c).1.text_lines.length = s.text_lines.length ∧
    (∀ i, i ≠ s.cursor_pos.row → (s.step c).1.text_lines[i]? = s.text_lines[i]?) := by
  obtain ⟨ws, cpos, tc, lines, mode⟩ := s
  simp only at hmode
  subst hmode
  simp only [State.step, State.handle_keypress_insertion, State.get_current_line]
  by_cases h27 : c = 27
  · rcases hl : lines[cpos.row]? with _ | line
    · simp [h27, hl]
    · simp only [h27, if_pos rfl, hl]
      refine ⟨rfl, by simp [List.length_set], ?_⟩
      intro i hi
      simp [List.getElem?_set_ne (fun h => hi h.symm)]
  · rw [if_neg h27]
    split_ifs <;> simp

/-- Witness for C8: the concrete insertion-mode state on "ab", input X. -/
theorem C8_insertion_frame_witness :
    insertionState.current_mode = Mode.Insertion ⟨['a'], ['b']⟩ ∧
    ((insertionState.step 88).1.cursor_pos.row = insertionState.cursor_pos.row ∧
     (insertionState.step 88).1.text_lines.length = insertionState.text_lines.length ∧
     (∀ i, i ≠ insertionState.cursor_pos.row →
        (insertionState.step 88).1.text_lines[i]? = insertionState.text_lines[i]?)) :=
  ⟨rfl, C8_insertion_frame insertionState ⟨['a'], ['b']⟩ 88 rfl⟩

/-- Claim C9: `get_unicode_width_at` is total; the invariant
`len = character count` and `summed width ≤ cached width` holds for every
constructor and mutator, and under it an index query on an ASCII-only line
returns the index, while on a flagged line an index past the end saturates at
the cached full display width. -/
theorem C9_width_at_safe :
    LineInv Line.new ∧
    (∀ s, LineInv (Line.with_string s)) ∧
    (∀ l c, LineInv l → LineInv (l.push c)) ∧
    (∀ l : Line, LineInv l.clear) ∧
    (∀ l idx, LineInv l →
      (l.has_utf8 = false → l.get_unicode_width_at idx = idx) ∧
      (l.has_utf8 = true → l.len < idx → l.get_unicode_width_at idx ≤ l.width)) := by
  have hclear : ∀ l : Line, LineInv l.clear := fun l => ⟨rfl, le_refl 0⟩
  refine ⟨⟨rfl, le_refl 0⟩, ?_, ?_, hclear, ?_⟩
  · intro s
    unfold Line.with_string
    split_ifs with hA
    · refine ⟨rfl, ?_⟩
      have : ∀ x ∈ s.map (fun c => (charWidthOpt c).getD 0), x ≤ 1 := by
        intro x hx
        obtain ⟨c, hc, rfl⟩ := List.mem_map.mp hx
        refine charWidth_ascii_le_one c ?_
        have := List.all_eq_true.mp hA c hc
        simpa using this
      calc strWidth s ≤ (s.map (fun c => (charWidthOpt c).getD 0)).length * 1 :=
             List.sum_le_card_nsmul _ 1 this
        _ = s.length := by simp
    · exact ⟨rfl, le_refl _⟩
  · intro l c hinv
    obtain ⟨hlen, hwid⟩ := hinv
    unfold Line.push
    split_ifs with hcond
    · refine ⟨by simp [hlen], ?_⟩
      simp only [strWidth_append, strWidth_cons, strWidth_nil]
      omega
    · have hone : (charWidthOpt c).getD 0 ≤ 1 := by
        by_cases hca : charIsAscii c = true
        · exact charWidth_ascii_le_one c hca
        · have hca' : charIsAscii c = false := by
            cases hq : charIsAscii c
            · rfl
            · exact absurd hq hca
          have hns : (charWidthOpt c).isSome = false := by
            cases hq : (charWidthOpt c).isSome
            · rfl
            · exact absurd (by simp [hca', hq]) hcond
          have hnone : charWidthOpt c = none := by
            cases hq : charWidthOpt c
            · rfl
            · rw [hq] at hns
              exact absurd hns (by simp)
          simp [hnone]
      refine ⟨by simp [hlen], ?_⟩
      simp only [strWidth_append, strWidth_cons, strWidth_nil]
      omega
  · intro l idx hinv
    obtain ⟨hlen, hwid⟩ := hinv
    constructor
    · intro hflag
      simp [Line.get_unicode_width_at, hflag]
    · intro hflag hidx
      have hne : ¬ idx = l.len := by omega
      have htake : l.text.take idx = l.text := by
        refine List.take_of_length_le ?_
        omega
      simp [Line.get_unicode_width_at, hflag, hne, htake, hwid]

/-- Witness for C9: the one-character double-width line queried at index 5,
far past its length 1. -/
theorem C9_width_at_safe_witness :
    LineInv wideLine ∧ wideLine.has_utf8 = true ∧ wideLine.len < 5 ∧
    wideLine.get_unicode_width_at 5 ≤ wideLine.width :=
  ⟨by decide, by decide, by decide,
    (C9_width_at_safe.2.2.2.2 wideLine 5 (by decide)).2 (by decide) (by decide)⟩

/-- Claim C10: in insertion mode the column equals the number of characters
in the split buffer's before-cursor part: seeded that way on entry, and
preserved by every insertion-mode keystroke. -/
theorem C10_col_matches_split :
    (∀ (s : State) (l : Line), s.get_current_line = some l → l.len = l.text.length →
       s.cursor_pos.col ≤ l.len →
       ∀ buf, (s.enable_insertion_mode).current_mode = Mode.Insertion buf →
         (s.enable_insertion_mode).cursor_pos.col = buf.start.length) ∧
    (∀ (s : State) (buf : SplitBuffer) (c : Nat),
       s.current_mode = Mode.Insertion buf →
       s.cursor_pos.col = buf.start.length →
       ∀ buf2, ((s.step c).1).current_mode = Mode.Insertion buf2 →
         ((s.step c).1).cursor_pos.col = buf2.start.length) := by
  constructor
  · intro s l hline hwf hcol buf hbuf
    obtain ⟨ws, cpos, tc, lines, mode⟩ := s
    simp only [State.get_current_line] at hline
    simp only at hcol
    simp only [State.enable_insertion_mode, State.get_current_line] at hbuf ⊢
    rw [hline] at hbuf ⊢
    dsimp only at hbuf ⊢
    rw [if_pos hcol] at hbuf ⊢
    simp only at hbuf ⊢
    injection hbuf with hbuf
    subst hbuf
    simp [List.length_take]
    omega
  · intro s buf c hmode hcol buf2 hbuf2
    obtain ⟨ws, cpos, tc, lines, mode⟩ := s
    simp only at hmode hcol
    subst hmode
    simp only [State.step, State.handle_keypress_insertion, State.get_current_line]
      at hbuf2 ⊢
    by_cases h27 : c = 27
    · exfalso
      rcases hl : lines[cpos.row]? with _ | line
      · rw [if_pos h27] at hbuf2
        rw [hl] at hbuf2
        simp at hbuf2
      · rw [if_pos h27] at hbuf2
        rw [hl] at hbuf2
        simp at hbuf2
    · rw [if_neg h27] at hbuf2 ⊢
      by_cases h127 : c = 127
      · rw [if_pos h127] at hbuf2 ⊢
        by_cases hcond : cpos.col ≠ 0 ∧ buf.start ≠ []
        · rw [if_pos hcond] at hbuf2 ⊢
          simp only at hbuf2 ⊢
          injection hbuf2 with hbuf2
          subst hbuf2
          simp only [List.length_dropLast]
          omega
        · rw [if_neg hcond] at hbuf2 ⊢
          simp only at hbuf2 ⊢
          injection hbuf2 with hbuf2
          subst hbuf2
          exact hcol
      · rw [if_neg h127] at hbuf2 ⊢
        by_cases hg : (33 ≤ c ∧ c ≤ 126) ∨ c = 32
        · rw [if_pos hg] at hbuf2 ⊢
          simp only at hbuf2 ⊢
          injection hbuf2 with hbuf2
          subst hbuf2
          simp [hcol]
        · rw [if_neg hg] at hbuf2 ⊢
          simp only at hbuf2 ⊢
          injection hbuf2 with hbuf2
          subst hbuf2
          exact hcol

/-- Witness for C10: entry on the "abc" line at column 1 seeds the buffer
with one character, and typing X in the concrete insertion state keeps the
column equal to the before-cursor length. -/
theorem C10_col_matches_split_witness :
    ((abcState.enable_insertion_mode).current_mode = Mode.Insertion ⟨['a'], ['b', 'c']⟩ ∧
     (abcState.enable_insertion_mode).cursor_pos.col = (['a'] : List Char).length) ∧
    ((insertionState.step 88).1.current_mode = Mode.Insertion ⟨['a', 'X'], ['b']⟩ ∧
     (insertionState.step 88).1.cursor_pos.col = (['a', 'X'] : List Char).length) :=
  ⟨⟨by decide,
    C10_col_matches_split.1 abcState (Line.with_string ['a', 'b', 'c'])
      (by decide) (by decide) (by decide) ⟨['a'], ['b', 'c']⟩ (by decide)⟩,
   ⟨by decide,
    C10_col_matches_split.2 insertionState ⟨['a'], ['b']⟩ 88 rfl rfl
      ⟨['a', 'X'], ['b']⟩ (by decide)⟩⟩

end VimRs
